import Mathlib

/-!
# Free-Time Computation and Common-Availability Engine: verification

Shallow embedding of the scheduling engine of the MeetUp repository
(`shared/src/utils/index.ts`, class `TimeUtils`, consumed by
`services/timetable-service/src/controllers/timetableController.ts`).

Modelling conventions:
* Timestamps are natural numbers counting minutes since an epoch midnight,
  in one fixed reference zone (the spec assumes all times normalized to one
  zone).  One day is 1440 minutes.  The epoch day is a Thursday (weekday 4),
  mirroring the JavaScript epoch, so `getDay` matches `Date.prototype.getDay`.
* `Date.prototype.setHours(h, 0, 0, 0)` on a timestamp keeps the calendar
  date and sets the time of day to `h` hours, which is
  `(t / 1440) * 1440 + h * 60` here (also faithful to the `h ≥ 24` rollover).
* Durations are computed in minutes, as the source computes
  `(ms difference) / (1000 * 60)`; commitments have minute resolution.
* `Array.prototype.sort` with comparator `(a, b) => aStart - bStart` is a
  stable sort ascending by start time; it is modelled by a stable insertion
  sort.  Note the source sorts the caller's array **in place**; the
  post-call state of that array is modelled by
  `calculateFreeTimeSlotsEntriesAfter`.
* Only the fields of `ITimetableEntry` / `IFreeTimeSlot` that the engine
  reads are modelled (plus the recurrence metadata, which the claims talk
  about).
-/

/-- Recurrence metadata of a timetable entry (`IRecurringPattern`). -/
structure RecurringPattern where
  frequency : String
  interval : Int
  endDate : Option Nat
  daysOfWeek : List Nat
deriving DecidableEq, Repr

/-- A timetable entry (`ITimetableEntry`), restricted to the fields the
engine reads: absolute start/end timestamps (minutes), the weekday tag
`dayOfWeek` (0 = Sunday … 6 = Saturday), and the recurrence metadata. -/
structure Entry where
  startTime : Nat
  endTime : Nat
  dayOfWeek : Nat
  isRecurring : Bool
  recurringPattern : Option RecurringPattern
deriving DecidableEq, Repr

/-- A free-time slot (`IFreeTimeSlot`). -/
structure FreeSlot where
  startTime : Nat
  endTime : Nat
  duration : Nat
  dayOfWeek : Nat
  isAvailable : Bool
deriving DecidableEq, Repr

/-- `Date.prototype.getDay`: weekday of a timestamp, epoch day = Thursday. -/
def getDay (t : Nat) : Nat :=
  (t / 1440 + 4) % 7

/-- `d.setHours(h, 0, 0, 0)`: same calendar date as `d`, time of day `h:00`. -/
def setHours (t h : Nat) : Nat :=
  (t / 1440) * 1440 + h * 60

/-- Stable insertion by ascending `startTime` (the element being inserted
comes from earlier in the original array, so it goes before equal keys). -/
def insertByStart (e : Entry) : List Entry → List Entry
  | [] => [e]
  | f :: rest =>
    if e.startTime ≤ f.startTime then e :: f :: rest
    else f :: insertByStart e rest

/-- `timetableEntries.sort((a, b) => aStart - bStart)`: stable sort of the
entries ascending by start time. -/
def sortEntries (l : List Entry) : List Entry :=
  l.foldr insertByStart []

/-- The day cursor values visited by
`for (currentDate = startDate; currentDate <= endDate; currentDate += day)`. -/
def daysInRange (startDate endDate : Nat) : List Nat :=
  if startDate ≤ endDate then
    (List.range ((endDate - startDate) / 1440 + 1)).map
      (fun i => startDate + 1440 * i)
  else []

/-- The inner gap sweep of `calculateFreeTimeSlots` over one day's entries:
`cursor` starts at the working window's open; for each entry in order a gap
`[cursor, entry.startTime)` is emitted when positive and at least 30 minutes,
then the cursor is set to `entry.endTime`; a final gap up to `eod` (the
window's close) is emitted under the same conditions. -/
def sweepGaps (eod dow : Nat) : Nat → List Entry → List FreeSlot
  | cursor, [] =>
    if cursor < eod ∧ 30 ≤ eod - cursor then
      [⟨cursor, eod, eod - cursor, dow, true⟩]
    else []
  | cursor, e :: rest =>
    (if cursor < e.startTime ∧ 30 ≤ e.startTime - cursor then
      [⟨cursor, e.startTime, e.startTime - cursor, dow, true⟩]
    else []) ++ sweepGaps eod dow e.endTime rest

/-- `TimeUtils.calculateFreeTimeSlots(entries, startDate, endDate,
{start: ws, end: we})` (the source defaults the working hours to 8 and 22).
For every day cursor in the range it filters the sorted entries by weekday
tag and sweeps the gaps between them inside the working window. -/
def calculateFreeTimeSlots (entries : List Entry)
    (startDate endDate ws we : Nat) : List FreeSlot :=
  let sorted := sortEntries entries
  (daysInRange startDate endDate).flatMap fun day =>
    let dow := getDay day
    sweepGaps (setHours day we) dow (setHours day ws)
      (sorted.filter (fun e => e.dayOfWeek == dow))

/-- The caller's entry array after `calculateFreeTimeSlots` returns:
`Array.prototype.sort` sorts the caller's array in place. -/
def calculateFreeTimeSlotsEntriesAfter (entries : List Entry) : List Entry :=
  sortEntries entries

/-- `TimeUtils.intersectFreeSlots(slots1, slots2)`: for every pair, the
overlap `[max starts, min ends)` is emitted when nonempty and at least
30 minutes, carrying the **first** slot's `dayOfWeek`. -/
def intersectFreeSlots (slots1 slots2 : List FreeSlot) : List FreeSlot :=
  slots1.flatMap fun s1 =>
    slots2.filterMap fun s2 =>
      let os := max s1.startTime s2.startTime
      let oe := min s1.endTime s2.endTime
      if os < oe ∧ 30 ≤ oe - os then
        some ⟨os, oe, oe - os, s1.dayOfWeek, true⟩
      else none

/-- `TimeUtils.findCommonFreeSlots(userFreeSlots)`: empty for no
participants, the first participant's slots unchanged for one, otherwise a
left fold of `intersectFreeSlots`. -/
def findCommonFreeSlots : List (List FreeSlot) → List FreeSlot
  | [] => []
  | [s] => s
  | s :: rest => rest.foldl intersectFreeSlots s

/-- A timestamp is covered by a slot list when some slot contains it. -/
def coversTime (slots : List FreeSlot) (t : Nat) : Prop :=
  ∃ s ∈ slots, s.startTime ≤ t ∧ t < s.endTime

instance (slots : List FreeSlot) (t : Nat) : Decidable (coversTime slots t) :=
  inferInstanceAs (Decidable (∃ s ∈ slots, _ ∧ _))

/-- Start/end projection of a slot list, the participant-independent part of
the engine's output. -/
def slotTimes (slots : List FreeSlot) : List (Nat × Nat) :=
  slots.map fun s => (s.startTime, s.endTime)

/-- Ordering of entries by start time, the sort key of the engine. -/
def entryLE (a b : Entry) : Prop :=
  a.startTime ≤ b.startTime

/-- C1 scenario: single commitment Monday 09:00–10:30 (Monday = epoch day
4, i.e. minute 5760), queried over that Monday only. -/
def c1Entry : Entry :=
  ⟨5760 + 540, 5760 + 630, 1, false, none⟩

example : getDay 5760 = 1 := by decide

/-- C1: one commitment Mon 09:00–10:30, working hours 08:00–22:00, minimum
duration 30, range containing only that Monday: exactly the two free
intervals 08:00–09:00 (60 min) and 10:30–22:00 (690 min) are returned. -/
theorem C1_gap_concrete :
    calculateFreeTimeSlots [c1Entry] 5760 5760 8 22 =
      [⟨5760 + 480, 5760 + 540, 60, 1, true⟩,
       ⟨5760 + 630, 5760 + 1320, 690, 1, true⟩] := by
  decide

/-- C6: `findCommonFreeSlots` on an empty participant list is empty, and on
a single participant it returns that participant's free slots unchanged. -/
theorem C6_identity :
    findCommonFreeSlots [] = [] ∧
      ∀ A : List FreeSlot, findCommonFreeSlots [A] = A := by
  exact ⟨rfl, fun A => rfl⟩

/-- C2 is false as stated: over an 8-day range containing two Mondays, the
single Monday commitment 09:00–10:30 produces two *overlapping* free slots
with the same `dayOfWeek` (the second Monday's sweep moves the cursor back
to the previous week's `endTime` and emits a week-spanning slot). -/
theorem C2_counterexample :
    (⟨6390, 7080, 690, 1, true⟩ : FreeSlot) ∈
        calculateFreeTimeSlots [c1Entry] 5760 15840 8 22 ∧
      (⟨6390, 17160, 10770, 1, true⟩ : FreeSlot) ∈
        calculateFreeTimeSlots [c1Entry] 5760 15840 8 22 ∧
      (⟨6390, 7080, 690, 1, true⟩ : FreeSlot) ≠ ⟨6390, 17160, 10770, 1, true⟩ ∧
      (6390 : Nat) < 7080 ∧ (6390 : Nat) < 17160 := by
  decide

/-- C3 is false as stated: there is no caller-supplied minimum duration in
`calculateFreeTimeSlots`; with a caller-requested minimum of 60 minutes,
the gap calculator still emits a 30-minute slot (the threshold 30 is
hard-coded). -/
theorem C3_counterexample :
    ¬ ∀ s ∈ calculateFreeTimeSlots [⟨6270, 7080, 1, false, none⟩]
        5760 5760 8 22, 60 ≤ s.duration := by
  decide

/-- C7 is false as stated: the emitted slot carries the **first**
participant's `dayOfWeek`, so reordering the three participants changes the
result set (here three time-identical slots tagged with weekdays 1, 2, 3). -/
theorem C7_counterexample :
    (⟨0, 60, 60, 2, true⟩ : FreeSlot) ∈
        findCommonFreeSlots
          [[⟨0, 60, 60, 2, true⟩], [⟨0, 60, 60, 3, true⟩], [⟨0, 60, 60, 1, true⟩]] ∧
      (⟨0, 60, 60, 2, true⟩ : FreeSlot) ∉
        findCommonFreeSlots
          [[⟨0, 60, 60, 1, true⟩], [⟨0, 60, 60, 2, true⟩], [⟨0, 60, 60, 3, true⟩]] := by
  decide

/-- C8 is false as stated: no clipping happens; a commitment 07:00–07:30
(ending before the window opens at 08:00) pulls the cursor back to 07:30
and the emitted free slot 07:30–22:00 starts before the working window. -/
theorem C8_counterexample :
    ∃ s ∈ calculateFreeTimeSlots [⟨6180, 6210, 1, false, none⟩]
        5760 5760 8 22, s.startTime < setHours 5760 8 := by
  decide

/-- C9 is false as stated: an entry whose recurrence metadata is malformed
(unknown frequency `"daily"`, step `interval = 0`) does not fail: the
engine returns the same normal slot list as for the equally-timed
non-recurring entry — the recurrence metadata is ignored entirely. -/
theorem C9_counterexample :
    calculateFreeTimeSlots
        [⟨5760 + 540, 5760 + 630, 1, true, some ⟨"daily", 0, none, []⟩⟩]
        5760 5760 8 22 =
      calculateFreeTimeSlots [c1Entry] 5760 5760 8 22 ∧
    calculateFreeTimeSlots
        [⟨5760 + 540, 5760 + 630, 1, true, some ⟨"daily", 0, none, []⟩⟩]
        5760 5760 8 22 =
      [⟨6240, 6300, 60, 1, true⟩, ⟨6390, 7080, 690, 1, true⟩] := by
  constructor <;> decide

/-- C10 is false as stated: `calculateFreeTimeSlots` sorts the caller's
entry array in place, so after the call the input array holds its elements
in a different order. -/
theorem C10_counterexample :
    calculateFreeTimeSlotsEntriesAfter
        [⟨540, 600, 1, false, none⟩, ⟨480, 510, 1, false, none⟩] ≠
      [⟨540, 600, 1, false, none⟩, ⟨480, 510, 1, false, none⟩] := by
  decide

/-- Inserting by start time yields a permutation of consing. -/
theorem insertByStart_perm (e : Entry) (l : List Entry) :
    (insertByStart e l).Perm (e :: l) := by
  induction l with
  | nil => simp [insertByStart]
  | cons f rest ih =>
    by_cases h : e.startTime ≤ f.startTime
    · simp [insertByStart, h]
    · simp only [insertByStart, if_neg h]
      exact (ih.cons f).trans (List.Perm.swap e f rest)

/-- The stable sort permutes the input. -/
theorem sortEntries_perm (l : List Entry) : (sortEntries l).Perm l := by
  induction l with
  | nil => simp [sortEntries]
  | cons e rest ih =>
    exact (insertByStart_perm e (sortEntries rest)).trans (ih.cons e)

/-- Membership is preserved by the sort. -/
theorem mem_sortEntries (a : Entry) (l : List Entry) :
    a ∈ sortEntries l ↔ a ∈ l :=
  (sortEntries_perm l).mem_iff

/-- Inserting into a list sorted by start time keeps it sorted. -/
theorem insertByStart_pairwise (e : Entry) (l : List Entry)
    (h : l.Pairwise entryLE) : (insertByStart e l).Pairwise entryLE := by
  induction l with
  | nil => simp [insertByStart, entryLE]
  | cons f rest ih =>
    rcases List.pairwise_cons.1 h with ⟨hf, hrest⟩
    by_cases hef : e.startTime ≤ f.startTime
    · simp only [insertByStart, if_pos hef]
      refine List.pairwise_cons.2 ⟨?_, h⟩
      intro b hb
      rcases List.mem_cons.1 hb with rfl | hb
      · exact hef
      · exact Nat.le_trans hef (hf b hb)
    · simp only [insertByStart, if_neg hef]
      refine List.pairwise_cons.2 ⟨?_, ih hrest⟩
      intro b hb
      rcases (insertByStart_perm e rest).mem_iff.1 hb with h1
      rcases List.mem_cons.1 h1 with rfl | hb2
      · exact Nat.le_of_not_le hef
      · exact hf b hb2

/-- The sorted entry list is sorted by start time. -/
theorem sortEntries_pairwise (l : List Entry) :
    (sortEntries l).Pairwise entryLE := by
  induction l with
  | nil => simp [sortEntries]
  | cons e rest ih => exact insertByStart_pairwise e (sortEntries rest) ih

/-- Every slot the sweep emits carries the day's weekday tag, is marked
available, has a truthful `duration` field, and lasts at least 30 minutes. -/
theorem mem_sweepGaps_fields (eod dow c : Nat) (es : List Entry)
    (s : FreeSlot) (hs : s ∈ sweepGaps eod dow c es) :
    s.dayOfWeek = dow ∧ s.isAvailable = true ∧
      s.duration = s.endTime - s.startTime ∧ 30 ≤ s.duration ∧
      s.startTime < s.endTime := by
  induction es generalizing c with
  | nil =>
    simp only [sweepGaps] at hs
    split at hs
    · rename_i hcond
      rcases List.mem_singleton.1 hs with rfl
      exact ⟨rfl, rfl, rfl, hcond.2, hcond.1⟩
    · simp at hs
  | cons e rest ih =>
    simp only [sweepGaps, List.mem_append] at hs
    rcases hs with hs | hs
    · split at hs
      · rename_i hcond
        rcases List.mem_singleton.1 hs with rfl
        exact ⟨rfl, rfl, rfl, hcond.2, hcond.1⟩
      · simp at hs
    · exact ih e.endTime hs

/-- Lower bound on emitted slot starts: if the cursor and every entry start
at or after `b` (entries being genuine intervals), so does every slot. -/
theorem sweepGaps_start_lb (eod dow b : Nat) (es : List Entry)
    (hes : ∀ e ∈ es, b ≤ e.startTime ∧ e.startTime ≤ e.endTime)
    (c : Nat) (hc : b ≤ c) :
    ∀ s ∈ sweepGaps eod dow c es, b ≤ s.startTime := by
  induction es generalizing c with
  | nil =>
    intro s hs
    simp only [sweepGaps] at hs
    split at hs
    · rcases List.mem_singleton.1 hs with rfl; exact hc
    · simp at hs
  | cons e rest ih =>
    intro s hs
    simp only [sweepGaps, List.mem_append] at hs
    rcases hs with hs | hs
    · split at hs
      · rcases List.mem_singleton.1 hs with rfl; exact hc
      · simp at hs
    · have he := hes e (List.mem_cons_self e rest)
      exact ih (fun f hf => hes f (List.mem_cons_of_mem e hf)) e.endTime
        (Nat.le_trans he.1 he.2) s hs

/-- Over a start-sorted list of genuine intervals the emitted slots are
chained: each slot ends no later than the next begins. -/
theorem sweepGaps_chain (eod dow : Nat) (es : List Entry)
    (hwf : ∀ e ∈ es, e.startTime ≤ e.endTime)
    (hsort : es.Pairwise entryLE) (c : Nat) :
    (sweepGaps eod dow c es).Pairwise (fun s t => s.endTime ≤ t.startTime) := by
  induction es generalizing c with
  | nil =>
    simp only [sweepGaps]
    split
    · simp
    · simp
  | cons e rest ih =>
    rcases List.pairwise_cons.1 hsort with ⟨hhead, hrest⟩
    have hrestwf : ∀ f ∈ rest, f.startTime ≤ f.endTime :=
      fun f hf => hwf f (List.mem_cons_of_mem e hf)
    have hrear := ih hrestwf hrest e.endTime
    have hlb : ∀ s ∈ sweepGaps eod dow e.endTime rest, e.startTime ≤ s.startTime := by
      refine sweepGaps_start_lb eod dow e.startTime rest
        (fun f hf => ⟨hhead f hf, hrestwf f hf⟩) e.endTime
        (hwf e (List.mem_cons_self e rest))
    simp only [sweepGaps]
    refine (List.pairwise_append).2 ⟨?_, hrear, ?_⟩
    · split
      · simp
      · simp
    · intro x hx y hy
      split at hx
      · rcases List.mem_singleton.1 hx with rfl
        exact hlb y hy
      · simp at hx

/-- If cursor and entries live inside `[lo, eod]`, so do all emitted slots. -/
theorem sweepGaps_window (eod dow lo : Nat) (es : List Entry)
    (hes : ∀ e ∈ es, lo ≤ e.startTime ∧ e.endTime ≤ eod ∧ e.startTime ≤ e.endTime)
    (c : Nat) (hc : lo ≤ c) :
    ∀ s ∈ sweepGaps eod dow c es, lo ≤ s.startTime ∧ s.endTime ≤ eod := by
  induction es generalizing c with
  | nil =>
    intro s hs
    simp only [sweepGaps] at hs
    split at hs
    · rcases List.mem_singleton.1 hs with rfl
      exact ⟨hc, Nat.le_refl _⟩
    · simp at hs
  | cons e rest ih =>
    intro s hs
    have he := hes e (List.mem_cons_self e rest)
    simp only [sweepGaps, List.mem_append] at hs
    rcases hs with hs | hs
    · split at hs
      · rcases List.mem_singleton.1 hs with rfl
        exact ⟨hc, Nat.le_trans he.2.2 he.2.1⟩
      · simp at hs
    · exact ih (fun f hf => hes f (List.mem_cons_of_mem e hf)) e.endTime
        (Nat.le_trans he.1 he.2.2) s hs

/-- Membership in the engine's output, day by day. -/
theorem mem_calculateFreeTimeSlots (entries : List Entry)
    (sd ed ws we : Nat) (s : FreeSlot) :
    s ∈ calculateFreeTimeSlots entries sd ed ws we ↔
      ∃ d ∈ daysInRange sd ed,
        s ∈ sweepGaps (setHours d we) (getDay d) (setHours d ws)
          ((sortEntries entries).filter (fun e => e.dayOfWeek == getDay d)) := by
  simp [calculateFreeTimeSlots, List.mem_flatMap]

/-- Unfolding of membership in the visited day list. -/
theorem mem_daysInRange (sd ed d : Nat) :
    d ∈ daysInRange sd ed ↔
      sd ≤ ed ∧ ∃ i ≤ (ed - sd) / 1440, d = sd + 1440 * i := by
  unfold daysInRange
  split
  · rename_i hle
    simp only [List.mem_map, List.mem_range, Nat.lt_succ_iff]
    constructor
    · rintro ⟨i, hi, rfl⟩
      exact ⟨hle, i, hi, rfl⟩
    · rintro ⟨-, i, hi, rfl⟩
      exact ⟨i, hi, rfl⟩
  · rename_i hlt
    simp only [List.not_mem_nil, false_iff, not_and]
    intro h
    exact absurd h hlt

/-- Weekday of a day cursor. -/
theorem getDay_day_cursor (sd i : Nat) :
    getDay (sd + 1440 * i) = (sd / 1440 + i + 4) % 7 := by
  unfold getDay
  rw [Nat.add_mul_div_left sd i (by norm_num : (0:Nat) < 1440)]

/-- In a range shorter than a week, the visited days carry pairwise
distinct weekdays. -/
theorem daysInRange_dow_pairwise (sd ed : Nat) (h : ed < sd + 10080) :
    (daysInRange sd ed).Pairwise (fun d1 d2 => getDay d1 ≠ getDay d2) := by
  unfold daysInRange
  split
  · rename_i hle
    have hcount : (ed - sd) / 1440 + 1 ≤ 7 := by
      have h1 : ed - sd < 7 * 1440 := by omega
      have h2 : (ed - sd) / 1440 < 7 :=
        (Nat.div_lt_iff_lt_mul (by norm_num : (0:Nat) < 1440)).2 (by omega)
      omega
    rw [List.pairwise_map, List.pairwise_iff_getElem]
    intro i j hi hj hij
    simp only [List.getElem_range] at *
    simp only [List.length_range] at hi hj
    intro heq
    rw [getDay_day_cursor, getDay_day_cursor] at heq
    have hdvd : (7 : Nat) ∣ (sd / 1440 + j + 4) - (sd / 1440 + i + 4) :=
      (Nat.modEq_iff_dvd' (by omega)).1 heq
    have hsub : (sd / 1440 + j + 4) - (sd / 1440 + i + 4) = j - i := by omega
    rw [hsub] at hdvd
    have hpos : 0 < j - i := by omega
    have := Nat.le_of_dvd hpos hdvd
    omega
  · simp

/-- Pairwise across a `flatMap`: blocks internally pairwise and pairwise
related blockwise. -/
theorem pairwise_flatMap_of {α β : Type} (R : β → β → Prop) (f : α → List β)
    (l : List α) (h1 : ∀ a ∈ l, (f a).Pairwise R)
    (h2 : l.Pairwise (fun a b => ∀ x ∈ f a, ∀ y ∈ f b, R x y)) :
    (l.flatMap f).Pairwise R := by
  induction l with
  | nil => simp
  | cons a rest ih =>
    rcases List.pairwise_cons.1 h2 with ⟨hhead, hrest⟩
    rw [List.flatMap_cons]
    refine List.pairwise_append.2 ⟨h1 a (List.mem_cons_self a rest), ?_, ?_⟩
    · exact ih (fun b hb => h1 b (List.mem_cons_of_mem a hb)) hrest
    · intro x hx y hy
      rcases List.mem_flatMap.1 hy with ⟨b, hb, hyb⟩
      exact hhead b hb x hx y hyb

/-- C2 (amended): for entries that are genuine intervals
(`startTime ≤ endTime`) and a queried range in which each weekday occurs at
most once (shorter than 7 days), no two emitted free slots for the same
weekday overlap: one of them ends before the other begins. -/
theorem C2_nonoverlap_amended (entries : List Entry) (sd ed ws we : Nat)
    (hwf : ∀ e ∈ entries, e.startTime ≤ e.endTime)
    (hrange : ed < sd + 10080) :
    (calculateFreeTimeSlots entries sd ed ws we).Pairwise
      (fun s t => s.dayOfWeek = t.dayOfWeek →
        s.endTime ≤ t.startTime ∨ t.endTime ≤ s.startTime) := by
  unfold calculateFreeTimeSlots
  refine pairwise_flatMap_of _ _ _ ?_ ?_
  · intro d _
    have hsorted : ((sortEntries entries).filter
        (fun e => e.dayOfWeek == getDay d)).Pairwise entryLE :=
      (sortEntries_pairwise entries).filter _
    have hwfd : ∀ e ∈ (sortEntries entries).filter
        (fun e => e.dayOfWeek == getDay d), e.startTime ≤ e.endTime := by
      intro e he
      exact hwf e ((mem_sortEntries e entries).1 (List.mem_of_mem_filter he))
    have := sweepGaps_chain (setHours d we) (getDay d) _ hwfd hsorted
      (setHours d ws)
    exact this.imp (fun h _ => Or.inl h)
  · have hdow := daysInRange_dow_pairwise sd ed hrange
    refine hdow.imp ?_
    intro d1 d2 hne x hx y hy hdoweq
    have hx1 := (mem_sweepGaps_fields _ _ _ _ x hx).1
    have hy1 := (mem_sweepGaps_fields _ _ _ _ y hy).1
    exact absurd (hx1 ▸ hy1 ▸ hdoweq) hne

/-- Witness for the amended C2 at the C1 scenario. -/
theorem C2_nonoverlap_witness :
    (∀ e ∈ [c1Entry], e.startTime ≤ e.endTime) ∧ 5760 < 5760 + 10080 ∧
      (calculateFreeTimeSlots [c1Entry] 5760 5760 8 22).Pairwise
        (fun s t => s.dayOfWeek = t.dayOfWeek →
          s.endTime ≤ t.startTime ∨ t.endTime ≤ s.startTime) :=
  ⟨by decide, by decide,
    C2_nonoverlap_amended [c1Entry] 5760 5760 8 22 (by decide) (by decide)⟩

/-- C8 (amended): the source performs no clipping; but when every matching
entry already lies inside its day's working window, every emitted free slot
lies inside the working window of some visited day. -/
theorem C8_window_amended (entries : List Entry) (sd ed ws we : Nat)
    (hwf : ∀ e ∈ entries, e.startTime ≤ e.endTime)
    (hwin : ∀ d ∈ daysInRange sd ed, ∀ e ∈ entries, e.dayOfWeek = getDay d →
      setHours d ws ≤ e.startTime ∧ e.endTime ≤ setHours d we) :
    ∀ s ∈ calculateFreeTimeSlots entries sd ed ws we,
      ∃ d ∈ daysInRange sd ed,
        setHours d ws ≤ s.startTime ∧ s.endTime ≤ setHours d we := by
  intro s hs
  rcases (mem_calculateFreeTimeSlots entries sd ed ws we s).1 hs with ⟨d, hd, hsw⟩
  refine ⟨d, hd, ?_⟩
  refine sweepGaps_window (setHours d we) (getDay d) (setHours d ws) _ ?_
    (setHours d ws) (Nat.le_refl _) s hsw
  intro e he
  have hmem : e ∈ entries :=
    (mem_sortEntries e entries).1 (List.mem_of_mem_filter he)
  have hdow : e.dayOfWeek = getDay d := by
    simpa using List.of_mem_filter he
  have hbounds := hwin d hd e hmem hdow
  exact ⟨hbounds.1, hbounds.2, hwf e hmem⟩

/-- Witness for the amended C8 at the C1 scenario. -/
theorem C8_window_witness :
    (∀ e ∈ [c1Entry], e.startTime ≤ e.endTime) ∧
      (∀ d ∈ daysInRange 5760 5760, ∀ e ∈ [c1Entry],
        e.dayOfWeek = getDay d →
          setHours d 8 ≤ e.startTime ∧ e.endTime ≤ setHours d 22) ∧
      ∀ s ∈ calculateFreeTimeSlots [c1Entry] 5760 5760 8 22,
        ∃ d ∈ daysInRange 5760 5760,
          setHours d 8 ≤ s.startTime ∧ s.endTime ≤ setHours d 22 :=
  ⟨by decide, by decide,
    C8_window_amended [c1Entry] 5760 5760 8 22 (by decide) (by decide)⟩

/-- Characterization of pairwise slot intersection. -/
theorem mem_intersectFreeSlots (A B : List FreeSlot) (s : FreeSlot) :
    s ∈ intersectFreeSlots A B ↔
      ∃ a ∈ A, ∃ b ∈ B,
        (max a.startTime b.startTime < min a.endTime b.endTime ∧
          30 ≤ min a.endTime b.endTime - max a.startTime b.startTime) ∧
        s = ⟨max a.startTime b.startTime, min a.endTime b.endTime,
          min a.endTime b.endTime - max a.startTime b.startTime,
          a.dayOfWeek, true⟩ := by
  unfold intersectFreeSlots
  simp only [List.mem_flatMap, List.mem_filterMap]
  constructor
  · rintro ⟨a, ha, b, hb, hfb⟩
    refine ⟨a, ha, b, hb, ?_⟩
    split at hfb
    · rename_i hcond
      exact ⟨hcond, (Option.some_inj.1 hfb).symm⟩
    · simp at hfb
  · rintro ⟨a, ha, b, hb, hcond, rfl⟩
    refine ⟨a, ha, b, hb, ?_⟩
    split
    · rfl
    · rename_i hneg
      exact absurd hcond hneg

/-- C3 (amended): the minimum slot duration is the hard-coded 30, not a
caller-supplied parameter: every slot emitted by the gap calculator and
every slot emitted by the pairwise intersector lasts at least 30 minutes
and has a truthful `duration` field (short gaps are dropped, not clamped). -/
theorem C3_min_duration_amended :
    (∀ (entries : List Entry) (sd ed ws we : Nat),
      ∀ s ∈ calculateFreeTimeSlots entries sd ed ws we,
        30 ≤ s.duration ∧ s.duration = s.endTime - s.startTime) ∧
    ∀ A B : List FreeSlot, ∀ s ∈ intersectFreeSlots A B,
        30 ≤ s.duration ∧ s.duration = s.endTime - s.startTime := by
  constructor
  · intro entries sd ed ws we s hs
    rcases (mem_calculateFreeTimeSlots entries sd ed ws we s).1 hs with
      ⟨d, _, hsw⟩
    have h := mem_sweepGaps_fields _ _ _ _ s hsw
    exact ⟨h.2.2.2.1, h.2.2.1⟩
  · intro A B s hs
    rcases (mem_intersectFreeSlots A B s).1 hs with ⟨a, _, b, _, hcond, rfl⟩
    exact ⟨hcond.2, rfl⟩

/-- Witness for the amended C3 at the C1 scenario. -/
theorem C3_min_duration_witness :
    (⟨6240, 6300, 60, 1, true⟩ : FreeSlot) ∈
        calculateFreeTimeSlots [c1Entry] 5760 5760 8 22 ∧
      30 ≤ (60 : Nat) ∧ (60 : Nat) = 6300 - 6240 :=
  ⟨by decide,
    C3_min_duration_amended.1 [c1Entry] 5760 5760 8 22
      ⟨6240, 6300, 60, 1, true⟩ (by decide)⟩

/-- C10 (amended): the call reorders the caller's array in place, but the
post-call array is a permutation of the input, sorted ascending by start
time; the computation itself is a pure function of its input, so equal
inputs give equal post-call arrays and equal outputs. -/
theorem C10_sort_in_place_amended (entries : List Entry) :
    (calculateFreeTimeSlotsEntriesAfter entries).Perm entries ∧
      (calculateFreeTimeSlotsEntriesAfter entries).Pairwise entryLE := by
  exact ⟨sortEntries_perm entries, sortEntries_pairwise entries⟩

/-- C9 (amended): the engine performs no recurrence validation at all: the
output of `calculateFreeTimeSlots` on a commitment does not depend on its
`isRecurring` flag or its `recurringPattern` metadata, malformed or not. -/
theorem C9_recurrence_ignored_amended (st et dw : Nat) (b1 b2 : Bool)
    (r1 r2 : Option RecurringPattern) (sd ed ws we : Nat) :
    calculateFreeTimeSlots [⟨st, et, dw, b1, r1⟩] sd ed ws we =
      calculateFreeTimeSlots [⟨st, et, dw, b2, r2⟩] sd ed ws we := by
  have h : ∀ day : Nat,
      sweepGaps (setHours day we) (getDay day) (setHours day ws)
        ((sortEntries [⟨st, et, dw, b1, r1⟩]).filter
          (fun e => e.dayOfWeek == getDay day)) =
      sweepGaps (setHours day we) (getDay day) (setHours day ws)
        ((sortEntries [⟨st, et, dw, b2, r2⟩]).filter
          (fun e => e.dayOfWeek == getDay day)) := by
    intro day
    by_cases hp : (dw == getDay day) = true
    · simp only [sortEntries, List.foldr, insertByStart, List.filter, hp,
        sweepGaps]
    · simp only [sortEntries, List.foldr, insertByStart, List.filter,
        Bool.not_eq_true] at hp ⊢
      simp only [hp]
  show ((daysInRange sd ed).flatMap fun day =>
      sweepGaps (setHours day we) (getDay day) (setHours day ws)
        ((sortEntries [⟨st, et, dw, b1, r1⟩]).filter
          (fun e => e.dayOfWeek == getDay day))) =
    (daysInRange sd ed).flatMap fun day =>
      sweepGaps (setHours day we) (getDay day) (setHours day ws)
        ((sortEntries [⟨st, et, dw, b2, r2⟩]).filter
          (fun e => e.dayOfWeek == getDay day))
  induction daysInRange sd ed with
  | nil => rfl
  | cons d rest ih => rw [List.flatMap_cons, List.flatMap_cons, ih, h d]

/-- Unfolding of membership in the time projection. -/
theorem mem_slotTimes (l : List FreeSlot) (p : Nat × Nat) :
    p ∈ slotTimes l ↔ ∃ s ∈ l, (s.startTime, s.endTime) = p := by
  simp [slotTimes, List.mem_map]

/-- The time projection of a pairwise intersection depends only on the time
projections of the inputs: it holds the nonempty, ≥ 30 minute overlaps. -/
theorem mem_slotTimes_intersect (A B : List FreeSlot) (p : Nat × Nat) :
    p ∈ slotTimes (intersectFreeSlots A B) ↔
      ∃ q ∈ slotTimes A, ∃ r ∈ slotTimes B,
        p.1 = max q.1 r.1 ∧ p.2 = min q.2 r.2 ∧ p.1 < p.2 ∧ 30 ≤ p.2 - p.1 := by
  rw [mem_slotTimes]
  constructor
  · rintro ⟨s, hs, rfl⟩
    rcases (mem_intersectFreeSlots A B s).1 hs with ⟨a, ha, b, hb, hcond, rfl⟩
    exact ⟨(a.startTime, a.endTime), (mem_slotTimes A _).2 ⟨a, ha, rfl⟩,
      (b.startTime, b.endTime), (mem_slotTimes B _).2 ⟨b, hb, rfl⟩,
      rfl, rfl, hcond.1, hcond.2⟩
  · rintro ⟨q, hq, r, hr, h1, h2, h3, h4⟩
    rcases (mem_slotTimes A q).1 hq with ⟨a, ha, rfl⟩
    rcases (mem_slotTimes B r).1 hr with ⟨b, hb, rfl⟩
    refine ⟨⟨max a.startTime b.startTime, min a.endTime b.endTime,
      min a.endTime b.endTime - max a.startTime b.startTime,
      a.dayOfWeek, true⟩, ?_, ?_⟩
    · refine (mem_intersectFreeSlots A B _).2 ⟨a, ha, b, hb, ⟨?_, ?_⟩, rfl⟩
      · rw [← h1, ← h2]; exact h3
      · rw [← h1, ← h2]; exact h4
    · cases p
      simp only [Prod.mk.injEq]
      exact ⟨h1.symm, h2.symm⟩

/-- Time projection of a left-nested triple intersection. -/
theorem mem_slotTimes_triple_left (A B C : List FreeSlot) (p : Nat × Nat) :
    p ∈ slotTimes (intersectFreeSlots (intersectFreeSlots A B) C) ↔
      ∃ qa ∈ slotTimes A, ∃ qb ∈ slotTimes B, ∃ qc ∈ slotTimes C,
        p.1 = max (max qa.1 qb.1) qc.1 ∧ p.2 = min (min qa.2 qb.2) qc.2 ∧
        p.1 < p.2 ∧ 30 ≤ p.2 - p.1 := by
  rw [mem_slotTimes_intersect]
  constructor
  · rintro ⟨q, hq, r, hr, h1, h2, h3, h4⟩
    rcases (mem_slotTimes_intersect A B q).1 hq with
      ⟨qa, ha, qb, hb, g1, g2, g3, g4⟩
    exact ⟨qa, ha, qb, hb, r, hr, by rw [h1, g1], by rw [h2, g2], h3, h4⟩
  · rintro ⟨qa, ha, qb, hb, qc, hc, h1, h2, h3, h4⟩
    refine ⟨(max qa.1 qb.1, min qa.2 qb.2), ?_, qc, hc, h1, h2, h3, h4⟩
    have hle1 : max qa.1 qb.1 ≤ p.1 := by rw [h1]; exact Nat.le_max_left _ _
    have hle2 : p.2 ≤ min qa.2 qb.2 := by rw [h2]; exact Nat.min_le_left _ _
    refine (mem_slotTimes_intersect A B _).2 ⟨qa, ha, qb, hb, rfl, rfl, ?_, ?_⟩
    · exact Nat.lt_of_le_of_lt hle1 (Nat.lt_of_lt_of_le h3 hle2)
    · exact Nat.le_trans h4 (tsub_le_tsub hle2 hle1)

/-- Time projection of a right-nested triple intersection. -/
theorem mem_slotTimes_triple_right (A B C : List FreeSlot) (p : Nat × Nat) :
    p ∈ slotTimes (intersectFreeSlots A (intersectFreeSlots B C)) ↔
      ∃ qa ∈ slotTimes A, ∃ qb ∈ slotTimes B, ∃ qc ∈ slotTimes C,
        p.1 = max qa.1 (max qb.1 qc.1) ∧ p.2 = min qa.2 (min qb.2 qc.2) ∧
        p.1 < p.2 ∧ 30 ≤ p.2 - p.1 := by
  rw [mem_slotTimes_intersect]
  constructor
  · rintro ⟨q, hq, r, hr, h1, h2, h3, h4⟩
    rcases (mem_slotTimes_intersect B C r).1 hr with
      ⟨qb, hb, qc, hc, g1, g2, g3, g4⟩
    exact ⟨q, hq, qb, hb, qc, hc, by rw [h1, g1], by rw [h2, g2], h3, h4⟩
  · rintro ⟨qa, ha, qb, hb, qc, hc, h1, h2, h3, h4⟩
    refine ⟨qa, ha, (max qb.1 qc.1, min qb.2 qc.2), ?_, h1, h2, h3, h4⟩
    have hle1 : max qb.1 qc.1 ≤ p.1 := by rw [h1]; exact Nat.le_max_right _ _
    have hle2 : p.2 ≤ min qb.2 qc.2 := by rw [h2]; exact Nat.min_le_right _ _
    refine (mem_slotTimes_intersect B C _).2 ⟨qb, hb, qc, hc, rfl, rfl, ?_, ?_⟩
    · exact Nat.lt_of_le_of_lt hle1 (Nat.lt_of_lt_of_le h3 hle2)
    · exact Nat.le_trans h4 (tsub_le_tsub hle2 hle1)

/-- Rotating the three participants of a left-nested triple intersection
preserves the time projection. -/
theorem slotTimes_triple_rot (A B C : List FreeSlot) (p : Nat × Nat) :
    p ∈ slotTimes (intersectFreeSlots (intersectFreeSlots A B) C) ↔
      p ∈ slotTimes (intersectFreeSlots (intersectFreeSlots B C) A) := by
  rw [mem_slotTimes_triple_left, mem_slotTimes_triple_left]
  constructor
  · rintro ⟨qa, ha, qb, hb, qc, hc, h1, h2, h3, h4⟩
    refine ⟨qb, hb, qc, hc, qa, ha, ?_, ?_, h3, h4⟩
    · rw [h1, Nat.max_assoc, Nat.max_comm]
    · rw [h2, Nat.min_assoc, Nat.min_comm]
  · rintro ⟨qb, hb, qc, hc, qa, ha, h1, h2, h3, h4⟩
    refine ⟨qa, ha, qb, hb, qc, hc, ?_, ?_, h3, h4⟩
    · rw [h1, Nat.max_comm, Nat.max_assoc]
    · rw [h2, Nat.min_comm, Nat.min_assoc]

/-- Swapping the first two participants of a left-nested triple
intersection preserves the time projection. -/
theorem slotTimes_triple_comm12 (A B C : List FreeSlot) (p : Nat × Nat) :
    p ∈ slotTimes (intersectFreeSlots (intersectFreeSlots A B) C) ↔
      p ∈ slotTimes (intersectFreeSlots (intersectFreeSlots B A) C) := by
  rw [mem_slotTimes_triple_left, mem_slotTimes_triple_left]
  constructor
  · rintro ⟨qa, ha, qb, hb, qc, hc, h1, h2, h3, h4⟩
    refine ⟨qb, hb, qa, ha, qc, hc, ?_, ?_, h3, h4⟩
    · rw [h1, Nat.max_comm qa.1 qb.1]
    · rw [h2, Nat.min_comm qa.2 qb.2]
  · rintro ⟨qb, hb, qa, ha, qc, hc, h1, h2, h3, h4⟩
    refine ⟨qa, ha, qb, hb, qc, hc, ?_, ?_, h3, h4⟩
    · rw [h1, Nat.max_comm qb.1 qa.1]
    · rw [h2, Nat.min_comm qb.2 qa.2]

/-- Re-nesting the pairwise fold preserves the time projection. -/
theorem slotTimes_triple_assoc (A B C : List FreeSlot) (p : Nat × Nat) :
    p ∈ slotTimes (intersectFreeSlots (intersectFreeSlots A B) C) ↔
      p ∈ slotTimes (intersectFreeSlots A (intersectFreeSlots B C)) := by
  rw [mem_slotTimes_triple_left, mem_slotTimes_triple_right]
  constructor
  · rintro ⟨qa, ha, qb, hb, qc, hc, h1, h2, h3, h4⟩
    exact ⟨qa, ha, qb, hb, qc, hc, by rw [h1, Nat.max_assoc],
      by rw [h2, Nat.min_assoc], h3, h4⟩
  · rintro ⟨qa, ha, qb, hb, qc, hc, h1, h2, h3, h4⟩
    exact ⟨qa, ha, qb, hb, qc, hc, by rw [h1, ← Nat.max_assoc],
      by rw [h2, ← Nat.min_assoc], h3, h4⟩

/-- C7 (amended): as *time intervals* the three-participant result does
not depend on the participant order or the fold nesting: every one of the
six participant orderings, and the right-nested pairwise fold, yields the
same set of (start, end) spans.  (The full records differ: the `dayOfWeek`
tag is taken from the first participant, see the counterexample.) -/
theorem C7_fold_order_amended (A B C : List FreeSlot) (p : Nat × Nat) :
    (p ∈ slotTimes (findCommonFreeSlots [A, B, C]) ↔
      p ∈ slotTimes (findCommonFreeSlots [A, C, B])) ∧
    (p ∈ slotTimes (findCommonFreeSlots [A, B, C]) ↔
      p ∈ slotTimes (findCommonFreeSlots [B, A, C])) ∧
    (p ∈ slotTimes (findCommonFreeSlots [A, B, C]) ↔
      p ∈ slotTimes (findCommonFreeSlots [B, C, A])) ∧
    (p ∈ slotTimes (findCommonFreeSlots [A, B, C]) ↔
      p ∈ slotTimes (findCommonFreeSlots [C, A, B])) ∧
    (p ∈ slotTimes (findCommonFreeSlots [A, B, C]) ↔
      p ∈ slotTimes (findCommonFreeSlots [C, B, A])) ∧
    (p ∈ slotTimes (findCommonFreeSlots [A, B, C]) ↔
      p ∈ slotTimes (intersectFreeSlots A (intersectFreeSlots B C))) := by
  refine ⟨?_, ?_, ?_, ?_, ?_, ?_⟩
  · exact ((slotTimes_triple_comm12 A C B p).trans
      (slotTimes_triple_rot C A B p)).symm
  · exact slotTimes_triple_comm12 A B C p
  · exact slotTimes_triple_rot A B C p
  · exact (slotTimes_triple_rot C A B p).symm
  · exact ((slotTimes_triple_rot C B A p).trans
      (slotTimes_triple_comm12 B A C p)).symm
  · exact slotTimes_triple_assoc A B C p

/-- Core single-commitment occupancy lemma: with a single entry whose
interval lies within one calendar day, any minute that the empty-schedule
baseline reports free but the entry's schedule does not (i.e. any minute
the entry *occupies*) lies on the entry's own calendar day — the engine
never occupies other same-weekday dates of the range. -/
theorem occupied_only_on_own_day (E : Entry) (sd ed ws we : Nat)
    (hday : E.startTime / 1440 = E.endTime / 1440) (hwe : we ≤ 24) (t : Nat)
    (hbase : coversTime (calculateFreeTimeSlots [] sd ed ws we) t)
    (hocc : ¬ coversTime (calculateFreeTimeSlots [E] sd ed ws we) t) :
    t / 1440 = E.startTime / 1440 := by
  rcases hbase with ⟨s, hsmem, hst, hte⟩
  rcases (mem_calculateFreeTimeSlots [] sd ed ws we s).1 hsmem with ⟨d, hd, hsw⟩
  have hfilt0 : (sortEntries []).filter
      (fun e => e.dayOfWeek == getDay d) = ([] : List Entry) := rfl
  rw [hfilt0] at hsw
  simp only [sweepGaps] at hsw
  split at hsw
  · rename_i hcond
    rcases List.mem_singleton.1 hsw with rfl
    have h1 : setHours d ws ≤ t := hst
    have h2 : t < setHours d we := hte
    have hwlt : setHours d ws < setHours d we := hcond.1
    by_cases hmatch : E.dayOfWeek = getDay d
    · rcases Nat.lt_trichotomy (E.startTime / 1440) (d / 1440) with
        hlt | heq | hgt
      · exfalso
        apply hocc
        refine ⟨⟨E.endTime, setHours d we, setHours d we - E.endTime,
          getDay d, true⟩,
          (mem_calculateFreeTimeSlots [E] sd ed ws we _).2 ⟨d, hd, ?_⟩,
          ?_, ?_⟩
        · rw [show (sortEntries [E]).filter
              (fun e => e.dayOfWeek == getDay d) = [E] from by
            simp [sortEntries, insertByStart, List.filter_cons, hmatch]]
          simp only [sweepGaps]
          refine List.mem_append_right _ ?_
          rw [if_pos ?_]
          · exact List.mem_singleton.2 rfl
          · unfold setHours at *
            constructor <;> omega
        · show E.endTime ≤ t
          unfold setHours at *
          omega
        · exact h2
      · unfold setHours at *
        omega
      · exfalso
        apply hocc
        refine ⟨⟨setHours d ws, E.startTime, E.startTime - setHours d ws,
          getDay d, true⟩,
          (mem_calculateFreeTimeSlots [E] sd ed ws we _).2 ⟨d, hd, ?_⟩,
          h1, ?_⟩
        · rw [show (sortEntries [E]).filter
              (fun e => e.dayOfWeek == getDay d) = [E] from by
            simp [sortEntries, insertByStart, List.filter_cons, hmatch]]
          simp only [sweepGaps]
          refine List.mem_append_left _ ?_
          rw [if_pos ?_]
          · exact List.mem_singleton.2 rfl
          · unfold setHours at *
            constructor <;> omega
        · show t < E.startTime
          unfold setHours at *
          omega
    · exfalso
      apply hocc
      refine ⟨⟨setHours d ws, setHours d we,
        setHours d we - setHours d ws, getDay d, true⟩,
        (mem_calculateFreeTimeSlots [E] sd ed ws we _).2 ⟨d, hd, ?_⟩,
        h1, h2⟩
      rw [show (sortEntries [E]).filter
          (fun e => e.dayOfWeek == getDay d) = [] from by
        simp [sortEntries, insertByStart, List.filter_cons, hmatch]]
      simp only [sweepGaps]
      rw [if_pos hcond]
      exact List.mem_singleton.2 rfl
  · simp at hsw

/-- C4: a non-recurring commitment whose interval lies within one calendar
day occupies time only on that single calendar day: any minute that is free
under the empty schedule but not free under the schedule holding just this
commitment lies on the commitment's own date, never on another same-weekday
date of the range. -/
theorem C4_nonrecurring_single_occurrence (E : Entry) (sd ed ws we : Nat)
    (_hrec : E.isRecurring = false)
    (hday : E.startTime / 1440 = E.endTime / 1440) (hwe : we ≤ 24) (t : Nat)
    (hbase : coversTime (calculateFreeTimeSlots [] sd ed ws we) t)
    (hocc : ¬ coversTime (calculateFreeTimeSlots [E] sd ed ws we) t) :
    t / 1440 = E.startTime / 1440 :=
  occupied_only_on_own_day E sd ed ws we hday hwe t hbase hocc

/-- Witness for C4: the Monday commitment over a two-Monday range occupies
Monday-week-1 09:30, a minute on its own date. -/
theorem C4_nonrecurring_witness :
    c1Entry.isRecurring = false ∧
      c1Entry.startTime / 1440 = c1Entry.endTime / 1440 ∧ (22 : Nat) ≤ 24 ∧
      coversTime (calculateFreeTimeSlots [] 5760 15840 8 22) 6330 ∧
      ¬ coversTime (calculateFreeTimeSlots [c1Entry] 5760 15840 8 22) 6330 ∧
      6330 / 1440 = c1Entry.startTime / 1440 :=
  ⟨by decide, by decide, by decide, by decide, by decide,
    C4_nonrecurring_single_occurrence c1Entry 5760 15840 8 22 (by decide)
      (by decide) (by decide) 6330 (by decide) (by decide)⟩

/-- C5 scenario entry: weekly recurring Monday 09:00–10:30 whose recurrence
ends on its own first Monday. -/
def c5Entry : Entry :=
  ⟨5760 + 540, 5760 + 630, 1, true, some ⟨"weekly", 1, some 6390, []⟩⟩

/-- C5 is false as stated: the engine performs no recurrence expansion and
never reads `recurrence.endDate`; a weekly recurring commitment whose base
interval lies on a day strictly *after* its end date (here endDate =
minute 0, base Monday week 1) still occupies its base date: minute 6330
(Monday 09:30, calendar day 4) is free under the empty schedule, not free
under this commitment, and lies on a day strictly after the end date. -/
theorem C5_counterexample :
    coversTime (calculateFreeTimeSlots [] 5760 5760 8 22) 6330 ∧
      ¬ coversTime
        (calculateFreeTimeSlots
          [⟨5760 + 540, 5760 + 630, 1, true, some ⟨"weekly", 1, some 0, []⟩⟩]
          5760 5760 8 22) 6330 ∧
      (0 : Nat) / 1440 < 6330 / 1440 := by
  exact ⟨by decide, by decide, by decide⟩

/-- C5 (amended): for a weekly recurring commitment with
`recurrence.endDate` set, a base interval within one calendar day, and that
base day *not after* the end date, every minute it occupies lies on a day
no later than the end date: days of the range strictly after `endDate` are
left unoccupied by it.  (Without the base-day condition the claim fails,
see the counterexample: the engine ignores the recurrence metadata and the
base occurrence itself may lie after `endDate`.) -/
theorem C5_recurrence_end_boundary (E : Entry) (pat : RecurringPattern)
    (endD : Nat) (sd ed ws we : Nat)
    (_hrec : E.isRecurring = true) (_hpat : E.recurringPattern = some pat)
    (_hfreq : pat.frequency = "weekly") (_hend : pat.endDate = some endD)
    (hbefore : E.startTime / 1440 ≤ endD / 1440)
    (hday : E.startTime / 1440 = E.endTime / 1440) (hwe : we ≤ 24) (t : Nat)
    (hbase : coversTime (calculateFreeTimeSlots [] sd ed ws we) t)
    (hocc : ¬ coversTime (calculateFreeTimeSlots [E] sd ed ws we) t) :
    t / 1440 ≤ endD / 1440 :=
  Nat.le_trans
    (Nat.le_of_eq (occupied_only_on_own_day E sd ed ws we hday hwe t hbase hocc))
    hbefore

/-- Witness for C5: the recurring Monday commitment with end date on its
first Monday, over a two-Monday range, occupies 09:30 of week 1 only — a
minute not after the end date. -/
theorem C5_recurrence_end_witness :
    c5Entry.isRecurring = true ∧
      c5Entry.recurringPattern = some ⟨"weekly", 1, some 6390, []⟩ ∧
      c5Entry.startTime / 1440 ≤ 6390 / 1440 ∧
      c5Entry.startTime / 1440 = c5Entry.endTime / 1440 ∧
      coversTime (calculateFreeTimeSlots [] 5760 15840 8 22) 6330 ∧
      ¬ coversTime (calculateFreeTimeSlots [c5Entry] 5760 15840 8 22) 6330 ∧
      6330 / 1440 ≤ 6390 / 1440 :=
  ⟨by decide, by decide, by decide, by decide, by decide, by decide,
    C5_recurrence_end_boundary c5Entry ⟨"weekly", 1, some 6390, []⟩ 6390
      5760 15840 8 22 (by decide) (by decide) (by decide) (by decide)
      (by decide) (by decide) (by decide) 6330 (by decide) (by decide)⟩
